import Mathlib

/-!
# Verification of the azul CSS style-resolution engine (`src/css.rs`)

A shallow embedding of the selector model, the selector grouping iterator,
the tree-matching engine, the specificity sort, the dynamic-property
classifier and the cascade driver of `src/azul/src/css.rs`, together with
proofs settling the frozen claims about them.

Modelling conventions:
* Rust `&str` / `String` values are modelled as `List Char` (`Str`); the
  string operations used by the source (`trim`, `starts_with`, `ends_with`,
  `trim_left_matches`, `trim_right_matches`, `splitn(2, "|")`, `split`)
  are defined below with Rust's semantics (for the ASCII inputs relevant
  here; Rust's Unicode whitespace and `char::is_numeric` coincide with the
  ASCII notions used in the file's claims).
* The external typed value parser `ParsedCssProperty::from_kv` (crate
  `css_parser`, not part of this repository's shown sources) is an opaque
  parameter `from_kv : Str → Str → Except E P` with opaque property type
  `P` and error type `E`, exactly as the specification treats it.
* `NodeTypePath` (crate-internal `dom` module, used only through
  `get_path()` equality) is modelled as a `Str` compared for equality.
* Node ids are `Nat`; the `id_tree` arena is modelled by its access
  functions (`parent : Nat → Option Nat`, ordered child lists), which is
  all the shown code consumes.
* Functions that can panic (`selector_group_matches` on a combinator)
  return `Option`/`Except`, with `none` standing for the panic.
-/

/-- Rust `&str`, modelled as a list of characters. -/
abbrev Str := List Char

/-- Rust `str::trim` on the left: drop leading whitespace. -/
def trimStart (s : Str) : Str := s.dropWhile Char.isWhitespace

/-- Rust `str::trim` on the right: drop trailing whitespace. -/
def trimEnd (s : Str) : Str := (s.reverse.dropWhile Char.isWhitespace).reverse

/-- Rust `str::trim`: drop leading and trailing whitespace. -/
def strTrim (s : Str) : Str := trimEnd (trimStart s)

/-- Rust `str::starts_with(p)`. -/
def strStartsWith (p s : Str) : Bool := decide (s.take p.length = p)

/-- Rust `str::ends_with(p)`. -/
def strEndsWith (p s : Str) : Bool := strStartsWith p.reverse s.reverse

/-- The `START_BRACE` constant `"[["` of `css.rs`. -/
def startBraceStr : Str := ['[', '[']

/-- The `END_BRACE` constant `"]]"` of `css.rs`. -/
def endBraceStr : Str := [']', ']']

/-- Rust `value.trim_left_matches(START_BRACE)`: repeatedly strip a
leading `"[["`. -/
def trimLeftMatchesBr : Str → Str
  | [] => []
  | [c] => [c]
  | c1 :: c2 :: rest =>
    if c1 = '[' ∧ c2 = '[' then trimLeftMatchesBr rest else c1 :: c2 :: rest

/-- Helper for `trimRightMatchesBr`, working on the reversed string:
repeatedly strip a leading (reversed) `"]]"`. -/
def trimRightMatchesAux : Str → Str
  | [] => []
  | [c] => [c]
  | c1 :: c2 :: rest =>
    if c1 = ']' ∧ c2 = ']' then trimRightMatchesAux rest else c1 :: c2 :: rest

/-- Rust `value.trim_right_matches(END_BRACE)`: repeatedly strip a
trailing `"]]"`. -/
def trimRightMatchesBr (s : Str) : Str := (trimRightMatchesAux s.reverse).reverse

/-- Rust `value.splitn(2, "|")`, observed through its (at most two)
items: the text before the first `'|'`, and — when a pipe exists — all
the text after it. -/
def splitFirstPipe : Str → Str × Option Str
  | [] => ([], none)
  | c :: rest =>
    if c = '|' then ([], some rest)
    else
      let r := splitFirstPipe rest
      (c :: r.1, r.2)

/-- First occurrence split: `some (before, after)` when the pattern
occurs, mirroring how Rust's `str::split(pat)` produces its pieces. -/
def splitOnceOn (pat : Str) : Str → Option (Str × Str)
  | [] => if pat.isEmpty then some ([], []) else none
  | c :: rest =>
    if strStartsWith pat (c :: rest) then some ([], (c :: rest).drop pat.length)
    else
      match splitOnceOn pat rest with
      | none => none
      | some (a, b) => some (c :: a, b)

/-- The second item of Rust's `data.split(pat)` iterator (the source
calls `next()` twice and uses only the second result). -/
def secondSplitElem (pat s : Str) : Option Str :=
  match splitOnceOn pat s with
  | none => none
  | some (_, after) =>
    match splitOnceOn pat after with
    | none => some after
    | some (before2, _) => some before2

/-- Rust `str::parse::<usize>()`: optional leading `'+'`, then one or
more ASCII digits (machine-width overflow is not modelled). -/
def parseUsize (s : Str) : Option Nat :=
  let s2 := match s with
    | '+' :: rest => rest
    | other => other
  if s2.isEmpty then none
  else if s2.all Char.isDigit then
    some (s2.foldl (fun acc c => acc * 10 + (c.toNat - ('0').toNat)) 0)
  else none

/-- Rust `char::is_numeric` on a string's first character, as used by
`dynamic_id.starts_with(char::is_numeric)`. -/
def headIsNumeric : Str → Bool
  | [] => false
  | c :: _ => c.isDigit

-- Decidable equality for `Except`, used to evaluate the classifier on
-- concrete inputs.
deriving instance DecidableEq for Except

/-- Rust `Result::is_ok`. -/
def exceptIsOk {E P : Type} : Except E P → Bool
  | .ok _ => true
  | .error _ => false

/-! ## Selector model (`CssPathSelector`, `CssPathPseudoSelector`, `CssPath`) -/

/-- `CssPathPseudoSelector` of `css.rs` (`:first`, `:last`,
`:nth-child(n)`, `:hover`, `:active`, `:focus`). -/
inductive CssPathPseudoSelector where
  | First
  | Last
  | NthChild (n : Nat)
  | Hover
  | Active
  | Focus
deriving DecidableEq

/-- `CssPathSelector` of `css.rs`.  The Rust constructor `Type` is named
`TypeName` here because `Type` is a Lean keyword; `NodeTypePath` is
modelled as a `Str`. -/
inductive CssPathSelector where
  | Global
  | TypeName (t : Str)
  | Class (s : Str)
  | Id (s : Str)
  | PseudoSelector (p : CssPathPseudoSelector)
  | DirectChildren
  | Children
deriving DecidableEq

/-- `CssPath`: a full selector path. -/
structure CssPath where
  selectors : List CssPathSelector
deriving DecidableEq

/-- `CssPseudoSelectorParseError` of `css.rs`.  The `ParseIntError`
payload of `InvalidNthChild` is opaque in Rust and dropped here. -/
inductive CssPseudoSelectorParseError where
  | UnknownSelector (s : Str)
  | InvalidNthChild
  | UnclosedBracesNthChild (s : Str)
deriving DecidableEq

/-- `CssPathPseudoSelector::from_str` of `css.rs`.  Note that the source
calls `nth_child_string.trim()` twice and discards the result both
times, so no trimming actually happens; the model reproduces that. -/
def CssPathPseudoSelector.from_str (data : Str) :
    Except CssPseudoSelectorParseError CssPathPseudoSelector :=
  if data = ("first").toList then .ok .First
  else if data = ("last").toList then .ok .Last
  else if data = ("hover").toList then .ok .Hover
  else if data = ("active").toList then .ok .Active
  else if data = ("focus").toList then .ok .Focus
  else if strStartsWith (("nth-child").toList) data then
    match secondSplitElem (("nth-child").toList) data with
    | none => .error (.UnknownSelector data)
    | some nth_child_string =>
      if !(strStartsWith (("(").toList) nth_child_string) ||
         !(strEndsWith ((")").toList) nth_child_string) then
        .error (.UnclosedBracesNthChild data)
      else
        let inner := (nth_child_string.drop 1).take (nth_child_string.length - 2)
        match parseUsize inner with
        | some n => .ok (.NthChild n)
        | none => .error .InvalidNthChild
  else .error (.UnknownSelector data)

/-! ## Declarations and the dynamic-property classifier -/

/-- `DynamicCssPropertyDefault` of `css.rs`, over the opaque property
type `P`. -/
inductive DynamicCssPropertyDefault (P : Type) where
  | Exact (p : P)
  | Auto
deriving DecidableEq

/-- `DynamicCssProperty` of `css.rs`. -/
structure DynamicCssProperty (P : Type) where
  dynamic_id : Str
  default : DynamicCssPropertyDefault P
deriving DecidableEq

/-- `CssDeclaration` of `css.rs`. -/
inductive CssDeclaration (P : Type) where
  | Static (p : P)
  | Dynamic (d : DynamicCssProperty P)
deriving DecidableEq

/-- `DynamicCssProperty::is_inheritable` of `css.rs`: dynamic properties
are never inheritable. -/
def DynamicCssProperty.is_inheritable {P : Type} (_ : DynamicCssProperty P) : Bool :=
  false

/-- `CssDeclaration::is_inheritable` of `css.rs`.  Whether a *static*
property is inheritable is decided by the external
`ParsedCssProperty::is_inheritable`, passed in as `inh`. -/
def CssDeclaration.is_inheritable {P : Type} (inh : P → Bool) :
    CssDeclaration P → Bool
  | .Static s => inh s
  | .Dynamic d => d.is_inheritable

/-- `DynamicCssParseError` of `css.rs`, over the opaque external parse
error type `E` (`CssParsingError`). -/
inductive DynamicCssParseError (E : Type) where
  | UnclosedBraces
  | NoDefaultCase
  | NoId
  | InvalidId
  | EmptyBraces
  | UnexpectedValue (e : E)
deriving DecidableEq

/-- `parse_dynamic_css_property` of `css.rs` (lines 744-797), over the
opaque external parser `from_kv`. -/
def parse_dynamic_css_property {P E : Type} (from_kv : Str → Str → Except E P)
    (key value : Str) :
    Except (DynamicCssParseError E) (DynamicCssProperty P) :=
  let value1 := trimLeftMatchesBr value
  let value2 := trimRightMatchesBr value1
  let value3 := strTrim value2
  let sp := splitFirstPipe value3
  match sp.2 with
  | none =>
    let id := sp.1
    if (strTrim id).isEmpty then .error .EmptyBraces
    else if exceptIsOk (from_kv key id) then .error .NoId
    else .error .NoDefaultCase
  | some default0 =>
    let dynamic_id := strTrim sp.1
    let default_case := strTrim default0
    match dynamic_id.isEmpty, default_case.isEmpty with
    | true, true => .error .EmptyBraces
    | true, false => .error .NoId
    | false, true => .error .NoDefaultCase
    | false, false =>
      if headIsNumeric dynamic_id || exceptIsOk (from_kv key dynamic_id) then
        .error .InvalidId
      else if default_case = ("auto").toList then
        .ok ⟨dynamic_id, .Auto⟩
      else
        match from_kv key default_case with
        | .ok p => .ok ⟨dynamic_id, .Exact p⟩
        | .error e => .error (.UnexpectedValue e)

/-- `determine_static_or_dynamic_css_property` of `css.rs`
(lines 722-742). -/
def determine_static_or_dynamic_css_property {P E : Type}
    (from_kv : Str → Str → Except E P) (key value : Str) :
    Except (DynamicCssParseError E) (CssDeclaration P) :=
  let key := strTrim key
  let value := strTrim value
  let is_starting_with_braces := strStartsWith startBraceStr value
  let is_ending_with_braces := strEndsWith endBraceStr value
  match is_starting_with_braces, is_ending_with_braces with
  | true, false => .error .UnclosedBraces
  | false, true => .error .UnclosedBraces
  | true, true => (parse_dynamic_css_property from_kv key value).map .Dynamic
  | false, false =>
    match from_kv key value with
    | .ok p => .ok (.Static p)
    | .error e => .error (.UnexpectedValue e)

/-! ## The selector grouping iterator (`CssGroupIterator`) -/

/-- `CssGroupSplitReason` of `css.rs`. -/
inductive CssGroupSplitReason where
  | Children
  | DirectChildren
deriving DecidableEq

/-- `CssContentGroup`: one combinator-free run of selectors (the Rust
type holds references; the model holds values). -/
abbrev CssContentGroup := List CssPathSelector

/-- The state of `CssGroupIterator` of `css.rs`. -/
structure CssGroupIterator where
  css_path : List CssPathSelector
  current_idx : Nat
  last_reason : CssGroupSplitReason

/-- `CssGroupIterator::new`. -/
def CssGroupIterator.new (css_path : List CssPathSelector) : CssGroupIterator :=
  { css_path := css_path, current_idx := css_path.length,
    last_reason := .Children }

/-- The `while new_idx != 0` scan loop inside `CssGroupIterator::next`:
starting from index `n` (exclusive), walk leftwards collecting
non-combinator selectors (returned in source order, i.e. already
`reverse`d as in the source) until a combinator is hit (which sets the
reason and leaves `new_idx` at the break position) or index 0 is
reached.  `none` models the `?` on `css_path.get(new_idx - 1)`. -/
def scanLoop (path : List CssPathSelector) :
    Nat → CssGroupSplitReason →
    Option (List CssPathSelector × Nat × CssGroupSplitReason)
  | 0, r => some ([], 0, r)
  | n + 1, r =>
    match path.get? n with
    | none => none
    | some .Children => some ([], n + 1, .Children)
    | some .DirectChildren => some ([], n + 1, .DirectChildren)
    | some other =>
      match scanLoop path n r with
      | none => none
      | some (g, i, r2) => some (g ++ [other], i, r2)

/-- `CssGroupIterator::next` of `css.rs` (lines 268-309): yields the
next `(content_group, reason)` pair and the successor iterator state, or
`none` when the iteration is over. -/
def iterNext (it : CssGroupIterator) :
    Option ((CssContentGroup × CssGroupSplitReason) × CssGroupIterator) :=
  if it.current_idx = 0 then none
  else
    match scanLoop it.css_path it.current_idx it.last_reason with
    | none => none
    | some (current_path, new_idx, reason) =>
      if new_idx = 0 then
        if current_path.isEmpty then none
        else
          some ((current_path, reason),
                { it with current_idx := 0, last_reason := reason })
      else
        some ((current_path, reason),
              { it with current_idx := new_idx - 1, last_reason := reason })

/-- Collect every pair the iterator yields, with enough fuel; since
`current_idx` strictly decreases at every yield, `css_path.length + 1`
steps of fuel always exhaust the iterator. -/
def iterCollect : Nat → CssGroupIterator →
    List (CssContentGroup × CssGroupSplitReason)
  | 0, _ => []
  | fuel + 1, it =>
    match iterNext it with
    | none => []
    | some (y, it2) => y :: iterCollect fuel it2

/-- The full sequence of `(content_group, reason)` pairs produced by
`CssGroupIterator::new(path)` — exactly what the `for` loop in
`matches_html_element` consumes. -/
def cssGroups (path : List CssPathSelector) :
    List (CssContentGroup × CssGroupSplitReason) :=
  iterCollect (path.length + 1) (CssGroupIterator.new path)

/-- Is a selector one of the two combinator markers? -/
def isCombinator : CssPathSelector → Bool
  | .DirectChildren => true
  | .Children => true
  | _ => false

/-- The split reason named by a combinator marker (defaulting to
`Children` on non-combinators, on which it is never used). -/
def reasonOf : CssPathSelector → CssGroupSplitReason
  | .DirectChildren => .DirectChildren
  | _ => .Children

/-- A selector that is not a combinator marker. -/
def notComb (s : CssPathSelector) : Bool := !isCombinator s

/-- Modelled from the amended claim's words (reference specification for
the grouping iterator, to be compared with `cssGroups`): walking the
reversed path, each maximal combinator-free run becomes one group (in
source order); a group is tagged with the combinator immediately
preceding it in source order when there is one, and a group that reaches
the start of the path keeps the previously assigned tag (initially the
`Children` default). -/
def groupsRevSpec (rev : List CssPathSelector) (last : CssGroupSplitReason) :
    List (CssContentGroup × CssGroupSplitReason) :=
  let g := rev.takeWhile notComb
  match h : rev.dropWhile notComb with
  | [] =>
    if g.isEmpty then [] else [(g.reverse, last)]
  | comb :: rest => (g.reverse, reasonOf comb) :: groupsRevSpec rest (reasonOf comb)
termination_by rev.length
decreasing_by
  have hle : (rev.dropWhile notComb).length ≤ rev.length :=
    List.Sublist.length_le (List.dropWhile_sublist _)
  rw [h] at hle
  simp at hle
  omega

/-! ## The tree-matching engine -/

/-- `HtmlCascadeInfo` of `css.rs`: the per-node cascade facts consulted
by the matcher (`node_data.node_type.get_path()` is pre-applied into the
`node_type` string). -/
structure HtmlCascadeInfo where
  node_type : Str
  classes : List Str
  ids : List Str
  index_in_parent : Nat
  is_last_child : Bool
  is_hovered_over : Bool
  is_active : Bool
  is_focused : Bool
deriving DecidableEq

/-- `selector_group_matches` of `css.rs` (lines 415-463): AND-semantics
test of one content group against one node's facts; `none` models the
`panic!` on a combinator inside a group. -/
def selector_group_matches (selectors : List CssPathSelector)
    (html_node : HtmlCascadeInfo) : Option Bool :=
  match selectors with
  | [] => some true
  | s :: rest =>
    match s with
    | .Global => selector_group_matches rest html_node
    | .TypeName t =>
      if html_node.node_type ≠ t then some false
      else selector_group_matches rest html_node
    | .Class c =>
      if ¬ c ∈ html_node.classes then some false
      else selector_group_matches rest html_node
    | .Id i =>
      if ¬ i ∈ html_node.ids then some false
      else selector_group_matches rest html_node
    | .PseudoSelector .First =>
      if html_node.index_in_parent ≠ 1 then some false
      else selector_group_matches rest html_node
    | .PseudoSelector .Last =>
      if !html_node.is_last_child then some false
      else selector_group_matches rest html_node
    | .PseudoSelector (.NthChild x) =>
      if html_node.index_in_parent ≠ x then some false
      else selector_group_matches rest html_node
    | .PseudoSelector .Hover =>
      if !html_node.is_hovered_over then some false
      else selector_group_matches rest html_node
    | .PseudoSelector .Active =>
      if !html_node.is_active then some false
      else selector_group_matches rest html_node
    | .PseudoSelector .Focus =>
      if !html_node.is_focused then some false
      else selector_group_matches rest html_node
    | .DirectChildren => none
    | .Children => none

/-- The `for (content_group, reason) in CssGroupIterator::new(..)` loop
body of `matches_html_element` (lines 213-234), over the pre-computed
sequence of yielded pairs; state: current node (`current_node`), the
`direct_parent_has_to_match` flag, and `last_selector_matched`. -/
def matchLoop (hier : Nat → Option Nat) (tree : Nat → HtmlCascadeInfo) :
    List (CssContentGroup × CssGroupSplitReason) →
    Option Nat → Bool → Bool → Option Bool
  | [], _, _, last => some last
  | (g, reason) :: rest, cur, direct, _ =>
    match cur with
    | none => some (decide (g = [CssPathSelector.Global]))
    | some c =>
      match selector_group_matches g (tree c) with
      | none => none
      | some m =>
        if direct && !m then some false
        else
          matchLoop hier tree rest (hier c)
            (decide (reason = CssGroupSplitReason.DirectChildren)) m

/-- `CssPath::matches_html_element` of `css.rs` (lines 197-237).  The
node hierarchy is observed only through the parent map `hier`; per-node
facts come from `tree`. -/
def CssPath.matches_html_element (path : CssPath) (node_id : Nat)
    (hier : Nat → Option Nat) (tree : Nat → HtmlCascadeInfo) : Option Bool :=
  if path.selectors.isEmpty then some false
  else matchLoop hier tree (cssGroups path.selectors) (some node_id) false false

/-- The `k`-th ancestor of a node (`nthAncestor hier 0 n = some n`,
each further step follows `parent`). -/
def nthAncestor (hier : Nat → Option Nat) : Nat → Nat → Option Nat
  | 0, n => some n
  | k + 1, n =>
    match hier n with
    | none => none
    | some p => nthAncestor hier k p

/-- The test of group `k` of `cssGroups sels` against the `k`-th
ancestor of `node` — the node the walk consults in loop iteration `k`
(one ancestor level per group). -/
def groupMatchB (hier : Nat → Option Nat) (tree : Nat → HtmlCascadeInfo)
    (sels : List CssPathSelector) (node k : Nat) : Bool :=
  (selector_group_matches ((cssGroups sels).getD k ([], .Children)).1
    (tree ((nthAncestor hier k node).getD 0))).getD false

/-- The reason (combinator tag) attached to group `k` of
`cssGroups sels`. -/
def groupReason (sels : List CssPathSelector) (k : Nat) : CssGroupSplitReason :=
  ((cssGroups sels).getD k ([], .Children)).2

/-- A group is combinator-free. -/
def combFree (g : List CssPathSelector) : Prop :=
  ∀ s ∈ g, isCombinator s = false

/-- The matching walk with the per-group test results pre-computed:
`stepChain pairs direct last` consumes `(test-result, reason)` pairs
exactly as the loop of `matches_html_element` does. -/
def stepChain : List (Bool × CssGroupSplitReason) → Bool → Bool → Bool
  | [], _, last => last
  | (b, r) :: rest, direct, _ =>
    if direct && !b then false
    else stepChain rest (decide (r = CssGroupSplitReason.DirectChildren)) b

/-- Pre-compute the `(test-result, reason)` pair of every group along
the ancestor chain starting at `m` (missing parents and the never-taken
panic branch are defaulted, which the lemmas' hypotheses rule out). -/
def pairsOf (hier : Nat → Option Nat) (tree : Nat → HtmlCascadeInfo) :
    List (CssContentGroup × CssGroupSplitReason) → Nat →
    List (Bool × CssGroupSplitReason)
  | [], _ => []
  | (g, r) :: rest, m =>
    ((selector_group_matches g (tree m)).getD false, r) ::
      pairsOf hier tree rest ((hier m).getD 0)

/-- `matches_html_element` as a `Bool`, used by the cascade driver's
rule filters (justified by `matches_html_element_isSome`: the `Option`
is never `none`). -/
def matchesB (path : CssPath) (node_id : Nat) (hier : Nat → Option Nat)
    (tree : Nat → HtmlCascadeInfo) : Bool :=
  (path.matches_html_element node_id hier tree).getD false

/-! ## Specificity and rule ordering -/

/-- `CssRuleBlock` of `css.rs`. -/
structure CssRuleBlock (P : Type) where
  path : CssPath
  declarations : List (CssDeclaration P)

/-- `get_specificity` of `css.rs` (lines 677-683): the
`(id_count, class_count, div_count)` triple of a path. -/
def get_specificity (path : CssPath) : Nat × Nat × Nat :=
  (path.selectors.countP (fun x => match x with | .Id _ => true | _ => false),
   path.selectors.countP (fun x => match x with | .Class _ => true | _ => false),
   path.selectors.countP (fun x => match x with | .TypeName _ => true | _ => false))

/-- Rust's derived `Ord` on `(usize, usize, usize)`: lexicographic
comparison, first component most significant. -/
def specCmp (a b : Nat × Nat × Nat) : Ordering :=
  (compare a.1 b.1).then ((compare a.2.1 b.2.1).then (compare a.2.2 b.2.2))

/-- The boolean `≤` induced by the comparator passed to `sort_by`. -/
def specLeB {P : Type} (a b : CssRuleBlock P) : Bool :=
  match specCmp (get_specificity a.path) (get_specificity b.path) with
  | .gt => false
  | _ => true

/-- `Css::sort_by_specificity` of `css.rs` (lines 581-583) on the rule
list.  Rust's `slice::sort_by` is a stable sort that is ascending with
respect to the comparator; any two stable sorts for the same total
preorder agree, so the stable `List.mergeSort` is an exact model. -/
def sort_by_specificity {P : Type} (rules : List (CssRuleBlock P)) :
    List (CssRuleBlock P) :=
  rules.mergeSort specLeB

/-- Lexicographic `≤` on specificity triples, spelled arithmetically
(id count most significant, then class count, then type-name count). -/
def lexLeSpec (a b : Nat × Nat × Nat) : Prop :=
  a.1 < b.1 ∨ (a.1 = b.1 ∧ (a.2.1 < b.2.1 ∨ (a.2.1 = b.2.1 ∧ a.2.2 ≤ b.2.2)))

/-! ## The cascade driver (`match_dom_css_selectors`) -/

/-- All declarations of all rules whose path matches node `n`, in
stylesheet order (the `css.rules.iter().filter(..)` / `extend(..)`
accumulation of `match_dom_css_selectors`). -/
def matchingDecls {P : Type} (css : List (CssRuleBlock P))
    (hier : Nat → Option Nat) (tree : Nat → HtmlCascadeInfo) (n : Nat) :
    List (CssDeclaration P) :=
  ((css.filter (fun rule => matchesB rule.path n hier tree)).map
    (fun rule => rule.declarations)).flatten

/-- `BTreeMap::insert` on the styled-node map, modelled as a function
update. -/
def updateFn {A : Type} (st : Nat → Option A) (k : Nat) (v : A) :
    Nat → Option A :=
  fun n => if n = k then some v else st n

/-- One iteration of the outer `for (_depth, parent_id) in
non_leaf_nodes` loop of `match_dom_css_selectors` (lines 814-853):
accumulate the parent's matching rules, compute the inheritable subset,
style every direct child (leaves get the inherited subset plus their own
direct matches, internal children only the inherited subset), then store
the parent's own accumulated result.  `children` gives each node's
ordered child list; a node's `first_child` is its head. -/
def cascadeStep {P : Type} (inh : P → Bool) (css : List (CssRuleBlock P))
    (hier : Nat → Option Nat) (children : Nat → List Nat)
    (tree : Nat → HtmlCascadeInfo)
    (styled : Nat → Option (List (CssDeclaration P))) (parent_id : Nat) :
    Nat → Option (List (CssDeclaration P)) :=
  let parent_rules := (styled parent_id).getD [] ++ matchingDecls css hier tree parent_id
  let inheritable_rules := parent_rules.filter (CssDeclaration.is_inheritable inh)
  let styled1 := (children parent_id).foldl
    (fun st child_id =>
      match (children child_id).head? with
      | none =>
        updateFn st child_id (inheritable_rules ++ matchingDecls css hier tree child_id)
      | some _ => updateFn st child_id inheritable_rules)
    styled
  updateFn styled1 parent_id parent_rules

/-- `match_dom_css_selectors` of `css.rs` (lines 799-868), observed
through the `styled_nodes` map it builds: fold the per-parent step over
the externally supplied depth-sorted list of internal nodes. -/
def match_dom_css_selectors {P : Type} (inh : P → Bool)
    (css : List (CssRuleBlock P)) (hier : Nat → Option Nat)
    (children : Nat → List Nat) (tree : Nat → HtmlCascadeInfo)
    (non_leaf_nodes : List Nat) : Nat → Option (List (CssDeclaration P)) :=
  non_leaf_nodes.foldl (cascadeStep inh css hier children tree) (fun _ => none)

/-! ## Concrete fixtures used to instantiate theorems with hypotheses -/

/-- A concrete stand-in for the external property parser: accepts the
values `400px` and `center` for every key. -/
def fkvDemo : Str → Str → Except Nat Unit := fun _ v =>
  if v = ("400px").toList then .ok ()
  else if v = ("center").toList then .ok ()
  else .error 0

/-- A concrete stand-in for the external property parser that always
fails with error code `7`. -/
def fkvFail : Str → Str → Except Nat Unit := fun _ _ => .error 7

/-- Concrete per-node cascade facts: every node is a `div`; node `2`
carries class `c`. -/
def demoTree : Nat → HtmlCascadeInfo := fun n =>
  { node_type := ("div").toList,
    classes := if n = 2 then [("c").toList] else [],
    ids := [],
    index_in_parent := 1,
    is_last_child := false,
    is_hovered_over := false,
    is_active := false,
    is_focused := false }

/-- A concrete parent map: no node has a parent. -/
def demoNoParent : Nat → Option Nat := fun _ => none

/-- A concrete child-list map for the cascade-driver examples: node `0`
has children `1` and `2`; node `1` has child `3`; all other nodes are
leaves. -/
def demoChildren : Nat → List Nat := fun n =>
  if n = 0 then [1, 2] else if n = 1 then [3] else []

/-- A concrete parent map matching `demoChildren`. -/
def demoParent : Nat → Option Nat := fun n =>
  if n = 1 ∨ n = 2 then some 0 else if n = 3 then some 1 else none

/-- A concrete one-rule stylesheet: `.c` carries a single static
declaration. -/
def demoCss : List (CssRuleBlock Unit) :=
  [⟨⟨[.Class (("c").toList)]⟩, [.Static ()]⟩]

/-! # Theorems

## String-operation lemmas -/

theorem dropWhile_dropWhile_self {α : Type} (p : α → Bool) (l : List α) :
    (l.dropWhile p).dropWhile p = l.dropWhile p := by
  induction l with
  | nil => rfl
  | cons c l ih =>
    by_cases h : p c
    · simp [List.dropWhile_cons, h, ih]
    · simp [List.dropWhile_cons, h]

theorem trimStart_trimStart (s : Str) : trimStart (trimStart s) = trimStart s :=
  dropWhile_dropWhile_self _ s

theorem trimEnd_trimEnd (s : Str) : trimEnd (trimEnd s) = trimEnd s := by
  simp [trimEnd, dropWhile_dropWhile_self]

theorem trimEnd_prefix_self (s : Str) : trimEnd s <+: s := by
  refine ⟨(s.reverse.takeWhile Char.isWhitespace).reverse, ?_⟩
  rw [trimEnd, ← List.reverse_append, List.takeWhile_append_dropWhile,
    List.reverse_reverse]

theorem trimStart_eq_self_of_prefix {u s : Str} (hu : u <+: s)
    (h : trimStart s = s) : trimStart u = u := by
  rcases u with _ | ⟨c, u'⟩
  · rfl
  · rcases hu with ⟨t, ht⟩
    subst ht
    by_cases hc : Char.isWhitespace c
    · exfalso
      rw [trimStart, List.cons_append, List.dropWhile_cons, if_pos hc] at h
      have hlen := congrArg List.length h
      have hle := (List.dropWhile_sublist (l := u' ++ t) Char.isWhitespace).length_le
      simp at hlen hle
      omega
    · rw [trimStart, List.dropWhile_cons, if_neg hc]

theorem trimStart_trimEnd_of_trimStart (s : Str) (h : trimStart s = s) :
    trimStart (trimEnd s) = trimEnd s :=
  trimStart_eq_self_of_prefix (trimEnd_prefix_self s) h

theorem strTrim_idem (s : Str) : strTrim (strTrim s) = strTrim s := by
  unfold strTrim
  rw [trimStart_trimEnd_of_trimStart (trimStart s) (trimStart_trimStart s),
    trimEnd_trimEnd]

/-! ## C10: the classifier is invariant under trimming its inputs -/

/-- C10 (confirmed).  For every key and value pair, the result of the
static-or-dynamic classifier is invariant under adding leading or
trailing whitespace to the key or the value:
`classify(key, value) = classify(trim(key), trim(value))`, because both
inputs are trimmed before any delimiter detection or parsing. -/
theorem determine_static_or_dynamic_trim_invariant {P E : Type}
    (from_kv : Str → Str → Except E P) (key value : Str) :
    determine_static_or_dynamic_css_property from_kv key value =
      determine_static_or_dynamic_css_property from_kv (strTrim key) (strTrim value) := by
  simp only [determine_static_or_dynamic_css_property, strTrim_idem]

/-! ## C9: delimiter detection in the classifier -/

theorem parse_dynamic_ne_unclosed {P E : Type}
    (from_kv : Str → Str → Except E P) (key value : Str) :
    parse_dynamic_css_property from_kv key value ≠
      .error .UnclosedBraces := by
  intro h
  simp only [parse_dynamic_css_property] at h
  repeat' split at h
  all_goals simp_all

/-- C9 (confirmed).  The classifier returns the unclosed-braces error
exactly when the trimmed value starts with `[[` but does not end with
`]]`, or ends with `]]` but does not start with `[[`; when both
delimiters are absent, the value is handed to the external property
parser, whose success is returned as a static declaration and whose
failure is propagated with its payload unchanged (inside the
classifier's wrapped-value variant `UnexpectedValue`); when both are
present, dynamic-property parsing is attempted. -/
theorem determine_static_or_dynamic_delimiters {P E : Type}
    (from_kv : Str → Str → Except E P) (key value : Str) :
    (determine_static_or_dynamic_css_property from_kv key value =
        .error .UnclosedBraces ↔
      strStartsWith startBraceStr (strTrim value) ≠
        strEndsWith endBraceStr (strTrim value))
    ∧ (strStartsWith startBraceStr (strTrim value) = false →
       strEndsWith endBraceStr (strTrim value) = false →
       determine_static_or_dynamic_css_property from_kv key value =
         match from_kv (strTrim key) (strTrim value) with
         | .ok p => .ok (.Static p)
         | .error e => .error (.UnexpectedValue e))
    ∧ (strStartsWith startBraceStr (strTrim value) = true →
       strEndsWith endBraceStr (strTrim value) = true →
       determine_static_or_dynamic_css_property from_kv key value =
         (parse_dynamic_css_property from_kv (strTrim key) (strTrim value)).map
           .Dynamic) := by
  refine ⟨?_, ?_, ?_⟩
  · constructor
    · intro h
      simp only [determine_static_or_dynamic_css_property] at h
      split at h
      · simp_all
      · simp_all
      · cases hp : parse_dynamic_css_property from_kv (strTrim key) (strTrim value) with
        | ok p => rw [hp] at h; simp [Except.map] at h
        | error er =>
          rw [hp] at h
          simp [Except.map] at h
          subst h
          exact (parse_dynamic_ne_unclosed from_kv (strTrim key) (strTrim value) hp).elim
      · split at h <;> simp_all
    · intro h
      simp only [determine_static_or_dynamic_css_property]
      rcases hs : strStartsWith startBraceStr (strTrim value) <;>
        rcases he : strEndsWith endBraceStr (strTrim value) <;>
          simp_all
  · intro hs he
    simp only [determine_static_or_dynamic_css_property, hs, he]
  · intro hs he
    simp only [determine_static_or_dynamic_css_property, hs, he]

/-- Witness for C9: instantiating the delimiter theorem at a concrete
key/value with the always-failing external parser shows the external
error code `7` surfacing unchanged inside the wrapped-value variant. -/
theorem determine_static_or_dynamic_delimiters_witness :
    determine_static_or_dynamic_css_property fkvFail (("k").toList)
      (("v").toList) = .error (.UnexpectedValue 7) := by
  have h := (determine_static_or_dynamic_delimiters fkvFail (("k").toList)
    (("v").toList)).2.1 (by decide) (by decide)
  rw [h]
  rfl

/-! ## C4: classification of a bracketed value with no pipe -/

/-- Counterexample for C4.  For `[[ 400px ]]` with a key for which
`400px` parses successfully, `parse_dynamic_css_property` returns
`NoId` — the very "no id provided" error (`DynamicCssParseError::NoId`,
displayed "The dynamic CSS property has no ID"), not an error variant
distinct from it as the claim states (no `InvalidDeclaration`-like
variant exists). -/
theorem parse_dynamic_bare_value_cex :
    exceptIsOk (fkvDemo (("width").toList) (("400px").toList)) = true ∧
    parse_dynamic_css_property fkvDemo (("width").toList)
      (("[[ 400px ]]").toList) = .error .NoId := by
  constructor
  · rfl
  · rfl

theorem trimLeftMatchesBr_eq_self (s : Str)
    (h : ∀ t, s ≠ '[' :: '[' :: t) : trimLeftMatchesBr s = s := by
  match s with
  | [] => rfl
  | [c] => rfl
  | c1 :: c2 :: rest =>
    rw [trimLeftMatchesBr, if_neg]
    intro ⟨h1, h2⟩
    exact h rest (by rw [h1, h2])

theorem trimRightMatchesAux_eq_self (s : Str)
    (h : ∀ t, s ≠ ']' :: ']' :: t) : trimRightMatchesAux s = s := by
  match s with
  | [] => rfl
  | [c] => rfl
  | c1 :: c2 :: rest =>
    rw [trimRightMatchesAux, if_neg]
    intro ⟨h1, h2⟩
    exact h rest (by rw [h1, h2])

theorem not_cons_cons_of_strStartsWith_false {c1 c2 : Char} {x : Str}
    (h : strStartsWith [c1, c2] x = false) : ∀ t, x ≠ c1 :: c2 :: t := by
  intro t ht
  subst ht
  simp [strStartsWith] at h

theorem append_endBrace_not_start {x : Str}
    (hs : strStartsWith startBraceStr x = false) :
    ∀ t, x ++ endBraceStr ≠ '[' :: '[' :: t := by
  intro t ht
  match x, ht with
  | [], ht => simp [endBraceStr] at ht
  | [c], ht =>
    rw [show [c] ++ endBraceStr = c :: ']' :: [']'] from rfl] at ht
    simp at ht
  | c1 :: c2 :: xs, ht =>
    rw [show (c1 :: c2 :: xs) ++ endBraceStr = c1 :: c2 :: (xs ++ endBraceStr) from rfl] at ht
    have h1 : c1 = '[' := by injection ht
    have h2 : c2 = '[' := by injection (by injection ht : c2 :: (xs ++ endBraceStr) = '[' :: t)
    exact not_cons_cons_of_strStartsWith_false hs xs (by rw [h1, h2])

theorem reverse_not_start_of_strEndsWith_false {x : Str}
    (he : strEndsWith endBraceStr x = false) :
    ∀ t, x.reverse ≠ ']' :: ']' :: t := by
  have h : strStartsWith [']', ']'] x.reverse = false := he
  exact not_cons_cons_of_strStartsWith_false h

theorem splitFirstPipe_no_pipe (s : Str) (h : ('|') ∉ s) :
    splitFirstPipe s = (s, none) := by
  induction s with
  | nil => rfl
  | cons c rest ih =>
    have hc : ¬ c = '|' := by
      intro hc
      exact h (by rw [hc]; exact List.mem_cons_self _ _)
    have hr : ('|') ∉ rest := fun hm => h (List.mem_cons_of_mem _ hm)
    simp [splitFirstPipe, hc, ih hr]

theorem strTrim_sublist (s : Str) : List.Sublist (strTrim s) s := by
  have h1 : List.Sublist (trimStart s) s := List.dropWhile_sublist _
  have h2 : List.Sublist (trimEnd (trimStart s)) (trimStart s) := by
    have := List.dropWhile_sublist (l := (trimStart s).reverse) Char.isWhitespace
    have hr := this.reverse
    rw [List.reverse_reverse] at hr
    exact hr
  exact h2.trans h1

theorem mem_of_mem_strTrim {a : Char} {s : Str} (h : a ∈ strTrim s) : a ∈ s :=
  (strTrim_sublist s).subset h

/-- C4 as amended (the amended claim).  For every key and every
bracketed value `[[x]]` whose inner text `x` contains no pipe (and does
not itself begin with `[[` or end with `]]`, so that the delimiters are
unambiguous): if the trimmed `x` is empty the classifier returns the
empty-braces error; if the trimmed `x` parses successfully as a property
value for the key it returns the *same* "no id provided" error (`NoId`)
that an explicitly missing id produces; otherwise it returns the
missing-default error (`NoDefaultCase`). -/
theorem parse_dynamic_no_pipe_classification {P E : Type}
    (from_kv : Str → Str → Except E P) (key x : Str)
    (hp : ('|') ∉ x)
    (hs : strStartsWith startBraceStr x = false)
    (he : strEndsWith endBraceStr x = false) :
    parse_dynamic_css_property from_kv key (startBraceStr ++ x ++ endBraceStr) =
      (if (strTrim x).isEmpty then .error .EmptyBraces
       else if exceptIsOk (from_kv key (strTrim x)) then .error .NoId
       else .error .NoDefaultCase) := by
  have h1 : trimLeftMatchesBr (startBraceStr ++ x ++ endBraceStr) =
      x ++ endBraceStr := by
    rw [show startBraceStr ++ x ++ endBraceStr =
      '[' :: '[' :: (x ++ endBraceStr) from rfl]
    rw [trimLeftMatchesBr, if_pos ⟨rfl, rfl⟩]
    exact trimLeftMatchesBr_eq_self _ (append_endBrace_not_start hs)
  have h2 : trimRightMatchesBr (x ++ endBraceStr) = x := by
    unfold trimRightMatchesBr
    rw [show (x ++ endBraceStr).reverse = ']' :: ']' :: x.reverse from by
      simp [endBraceStr]]
    rw [trimRightMatchesAux, if_pos ⟨rfl, rfl⟩]
    rw [trimRightMatchesAux_eq_self _ (reverse_not_start_of_strEndsWith_false he),
      List.reverse_reverse]
  have h3 : splitFirstPipe (strTrim x) = (strTrim x, none) :=
    splitFirstPipe_no_pipe _ (fun hm => hp (mem_of_mem_strTrim hm))
  simp only [parse_dynamic_css_property, h1, h2, h3, strTrim_idem]

/-- Witness for C4's amended theorem: for `[[ id ]]` with the
always-failing external parser, the classifier reports the
missing-default error. -/
theorem parse_dynamic_no_pipe_classification_witness :
    parse_dynamic_css_property fkvFail (("width").toList)
      (startBraceStr ++ (" id ").toList ++ endBraceStr) =
      .error .NoDefaultCase := by
  have h := parse_dynamic_no_pipe_classification fkvFail (("width").toList)
    ((" id ").toList) (by decide) (by decide) (by decide)
  rw [h]
  rfl

/-! ## C5: the pseudo-selector parser (`nth-child`) -/

/-- C5 (code bug).  The claim says the parenthesized content is trimmed
before the integer parse, and the source's two `nth_child_string.trim()`
statements show that was the intent — but both discard their results
(Rust's `str::trim` returns the trimmed slice), so nothing is trimmed
and `nth-child( 4 )` fails with the invalid-integer error instead of
succeeding with `NthChild 4`. -/
theorem from_str_nth_child_spaces_fails :
    CssPathPseudoSelector.from_str (("nth-child( 4 )").toList) =
        .error .InvalidNthChild ∧
      CssPathPseudoSelector.from_str (("nth-child(4)").toList) =
        .ok (.NthChild 4) := by
  constructor
  · rfl
  · rfl

/-! ## C1: the grouping iterator's tags -/

theorem scanLoop_eq (path : List CssPathSelector) :
    ∀ (c : Nat), c ≤ path.length → ∀ (r : CssGroupSplitReason),
    scanLoop path c r = some
      (match (path.take c).reverse.dropWhile notComb with
       | [] => (((path.take c).reverse.takeWhile notComb).reverse, 0, r)
       | comb :: rest =>
         (((path.take c).reverse.takeWhile notComb).reverse,
          rest.length + 1, reasonOf comb)) := by
  intro c
  induction c with
  | zero => intro _ r; simp [scanLoop]
  | succ n ih =>
    intro hc r
    have hn : n < path.length := by omega
    have htake : path.take (n + 1) = path.take n ++ [path.get ⟨n, hn⟩] := by
      rw [List.take_succ]
      congr 1
      rw [List.getElem?_eq_getElem hn]
      rfl
    have hrevlen : (path.take n).reverse.length = n := by
      simp [List.length_take, Nat.min_eq_left (Nat.le_of_lt hn)]
    have hget : path.get? n = some (path.get ⟨n, hn⟩) := by
      rw [List.get?_eq_getElem?, List.getElem?_eq_getElem hn]
      rfl
    rw [htake, List.reverse_append, List.reverse_cons, List.reverse_nil,
      List.nil_append, List.singleton_append]
    rcases hsel : path.get ⟨n, hn⟩ with _ | t | cs | i | ps
    case Children =>
      rw [scanLoop, hget, hsel, List.takeWhile_cons, List.dropWhile_cons]
      rw [show notComb CssPathSelector.Children = false from rfl]
      simp [reasonOf, hrevlen]
    case DirectChildren =>
      rw [scanLoop, hget, hsel, List.takeWhile_cons, List.dropWhile_cons]
      rw [show notComb CssPathSelector.DirectChildren = false from rfl]
      simp [reasonOf, hrevlen]
    case Global =>
      rw [scanLoop, hget, hsel, ih (by omega) r, List.takeWhile_cons,
        List.dropWhile_cons]
      rw [show notComb CssPathSelector.Global = true from rfl]
      rcases hd : (path.take n).reverse.dropWhile notComb with _ | ⟨comb, rest⟩ <;>
        simp [hd]
    case TypeName =>
      rw [scanLoop, hget, hsel, ih (by omega) r, List.takeWhile_cons,
        List.dropWhile_cons]
      rw [show notComb (CssPathSelector.TypeName t) = true from rfl]
      rcases hd : (path.take n).reverse.dropWhile notComb with _ | ⟨comb, rest⟩ <;>
        simp [hd]
    case Class =>
      rw [scanLoop, hget, hsel, ih (by omega) r, List.takeWhile_cons,
        List.dropWhile_cons]
      rw [show notComb (CssPathSelector.Class cs) = true from rfl]
      rcases hd : (path.take n).reverse.dropWhile notComb with _ | ⟨comb, rest⟩ <;>
        simp [hd]
    case Id =>
      rw [scanLoop, hget, hsel, ih (by omega) r, List.takeWhile_cons,
        List.dropWhile_cons]
      rw [show notComb (CssPathSelector.Id i) = true from rfl]
      rcases hd : (path.take n).reverse.dropWhile notComb with _ | ⟨comb, rest⟩ <;>
        simp [hd]
    case PseudoSelector =>
      rw [scanLoop, hget, hsel, ih (by omega) r, List.takeWhile_cons,
        List.dropWhile_cons]
      rw [show notComb (CssPathSelector.PseudoSelector ps) = true from rfl]
      rcases hd : (path.take n).reverse.dropWhile notComb with _ | ⟨comb, rest⟩ <;>
        simp [hd]

theorem iterCollect_zero_idx (fuel : Nat) (path : List CssPathSelector)
    (r : CssGroupSplitReason) : iterCollect fuel ⟨path, 0, r⟩ = [] := by
  cases fuel with
  | zero => rfl
  | succ f => simp [iterCollect, iterNext]

theorem iterCollect_succ_of_next {f : Nat} {it it2 : CssGroupIterator}
    {y : CssContentGroup × CssGroupSplitReason}
    (h : iterNext it = some (y, it2)) :
    iterCollect (f + 1) it = y :: iterCollect f it2 := by
  simp [iterCollect, h]

theorem groupsRevSpec_eq_nil {rev : List CssPathSelector}
    {last : CssGroupSplitReason} (hd : rev.dropWhile notComb = []) :
    groupsRevSpec rev last =
      if (rev.takeWhile notComb).isEmpty then []
      else [((rev.takeWhile notComb).reverse, last)] := by
  rw [groupsRevSpec]
  split
  · rfl
  · rename_i h
    rw [hd] at h
    cases h

theorem groupsRevSpec_eq_cons {rev : List CssPathSelector}
    {last : CssGroupSplitReason} {comb : CssPathSelector}
    {rest : List CssPathSelector} (hd : rev.dropWhile notComb = comb :: rest) :
    groupsRevSpec rev last =
      ((rev.takeWhile notComb).reverse, reasonOf comb) ::
        groupsRevSpec rest (reasonOf comb) := by
  rw [groupsRevSpec]
  split
  · rename_i h
    rw [hd] at h
    cases h
  · rename_i h
    rw [hd] at h
    injection h with h1 h2
    rw [h1, h2]

theorem take_of_rev_split {path A rest : List CssPathSelector}
    {comb : CssPathSelector} {c : Nat} (hc : c ≤ path.length)
    (hrev : (path.take c).reverse = A ++ comb :: rest) :
    path.take rest.length = rest.reverse := by
  have hlen : A.length + (rest.length + 1) = c := by
    have h1 := congrArg List.length hrev
    simp [List.length_take, Nat.min_eq_left hc] at h1
    omega
  have h0 : path.take c = rest.reverse ++ ([comb] ++ A.reverse) := by
    have h2 := congrArg List.reverse hrev
    rw [List.reverse_reverse] at h2
    rw [h2]
    simp
  have h3 : path.take rest.length = (path.take c).take rest.length := by
    rw [List.take_take, Nat.min_eq_left (by omega)]
  rw [h3, h0]
  exact List.take_left' (List.length_reverse rest)

theorem iterCollect_eq_groupsRevSpec (path : List CssPathSelector) :
    ∀ (fuel c : Nat) (r : CssGroupSplitReason), c ≤ path.length → c < fuel →
    iterCollect fuel ⟨path, c, r⟩ = groupsRevSpec ((path.take c).reverse) r := by
  intro fuel
  induction fuel with
  | zero => intro c r _ hcf; omega
  | succ f ih =>
    intro c r hc hcf
    rcases Nat.eq_zero_or_pos c with hc0 | hcpos
    · subst hc0
      rw [iterCollect_zero_idx]
      simp [groupsRevSpec]
    · have hrevlen : ((path.take c).reverse).length = c := by
        simp [List.length_take, Nat.min_eq_left hc]
      have hsplit := List.takeWhile_append_dropWhile (p := notComb)
        (l := (path.take c).reverse)
      rcases hd : (path.take c).reverse.dropWhile notComb with _ | ⟨comb, rest⟩
      · -- the scan reaches the start of the path: a single final group
        have hg : (path.take c).reverse.takeWhile notComb = (path.take c).reverse := by
          rw [hd, List.append_nil] at hsplit
          exact hsplit
        have hne : ¬ (path.take c) = [] := by
          intro h0
          rw [h0] at hrevlen
          simp at hrevlen
          omega
        have hcz : ¬ c = 0 := by omega
        rw [iterCollect_succ_of_next (show iterNext ⟨path, c, r⟩ =
            some (((path.take c), r), ⟨path, 0, r⟩) from by
          simp only [iterNext]
          rw [if_neg hcz, scanLoop_eq path c hc r, hd]
          simp [hg, List.isEmpty_iff, hne])]
        rw [iterCollect_zero_idx]
        rw [groupsRevSpec_eq_nil hd, hg]
        simp [List.isEmpty_iff, hne]
      · -- the scan stopped at a combinator
        have hlen : ((path.take c).reverse.takeWhile notComb).length +
            (rest.length + 1) = c := by
          have := congrArg List.length hsplit
          rw [hd] at this
          simp at this
          omega
        have hrest_le : rest.length ≤ path.length := by omega
        have hrev : (path.take c).reverse =
            (path.take c).reverse.takeWhile notComb ++ (comb :: rest) := by
          rw [hd] at hsplit
          exact hsplit.symm
        have htr : path.take rest.length = rest.reverse :=
          take_of_rev_split hc hrev
        have hcz : ¬ c = 0 := by omega
        have hlf : rest.length < f := by omega
        rw [iterCollect_succ_of_next (show iterNext ⟨path, c, r⟩ =
            some ((((path.take c).reverse.takeWhile notComb).reverse,
                   reasonOf comb),
                  ⟨path, rest.length, reasonOf comb⟩) from by
          simp only [iterNext]
          rw [if_neg hcz, scanLoop_eq path c hc r, hd]
          simp)]
        rw [ih rest.length (reasonOf comb) hrest_le hlf]
        rw [htr, List.reverse_reverse, groupsRevSpec_eq_cons hd]

/-- Counterexample for C1.  For the path `.a > .b` the iterator's first
(rightmost) yielded group `[.b]` is tagged `DirectChildren` — the
combinator that precedes it in source order — not the default
"descendant" (`Children`) tag the claim asserts for every first group. -/
theorem css_group_iterator_first_tag_cex :
    (cssGroups [CssPathSelector.Class (("a").toList), .DirectChildren,
        .Class (("b").toList)]).map (fun y => y.2) =
      [CssGroupSplitReason.DirectChildren, CssGroupSplitReason.DirectChildren] ∧
    CssGroupSplitReason.DirectChildren ≠ CssGroupSplitReason.Children := by
  constructor
  · rfl
  · decide

theorem cssGroups_eq_groupsRevSpec (path : List CssPathSelector) :
    cssGroups path = groupsRevSpec path.reverse .Children := by
  unfold cssGroups
  rw [show CssGroupIterator.new path = ⟨path, path.length, .Children⟩ from rfl]
  rw [iterCollect_eq_groupsRevSpec path (path.length + 1) path.length .Children
    le_rfl (by omega)]
  rw [List.take_length]

/-- C1 as amended (the amended claim).  For every selector path, the
grouping iterator yields the path's maximal combinator-free runs from
right to left, each in source order; a group is tagged with the
combinator that immediately precedes it in source order when one exists
(this includes the first group), and a group that reaches the start of
the path is tagged with the previously assigned tag — the default
"descendant" (`Children`) tag only when it is also the first group.
This is exactly the reference recursion `groupsRevSpec` on the reversed
path. -/
theorem css_group_iterator_tags (path : List CssPathSelector) :
    cssGroups path = groupsRevSpec path.reverse .Children :=
  cssGroups_eq_groupsRevSpec path

theorem groupsRevSpec_combFree :
    ∀ (n : Nat) (rev : List CssPathSelector), rev.length ≤ n →
    ∀ (last : CssGroupSplitReason), ∀ y ∈ groupsRevSpec rev last, combFree y.1 := by
  intro n
  induction n with
  | zero =>
    intro rev hn last y hy
    have hrev : rev = [] := List.length_eq_zero.mp (by omega)
    subst hrev
    rw [groupsRevSpec_eq_nil (show List.dropWhile notComb [] = [] from rfl)] at hy
    simp at hy
  | succ n ih =>
    intro rev hn last y hy
    have htw : ∀ s ∈ rev.takeWhile notComb, isCombinator s = false := by
      intro s hs
      have := List.mem_takeWhile_imp hs
      simpa [notComb] using this
    rcases hd : rev.dropWhile notComb with _ | ⟨comb, rest⟩
    · rw [groupsRevSpec_eq_nil hd] at hy
      split at hy
      · simp at hy
      · simp at hy
        rw [hy]
        intro s hs
        rw [List.mem_reverse] at hs
        exact htw s hs
    · rw [groupsRevSpec_eq_cons hd] at hy
      rcases List.mem_cons.mp hy with hy1 | hy2
      · rw [hy1]
        intro s hs
        rw [List.mem_reverse] at hs
        exact htw s hs
      · have hrl : rest.length < rev.length := by
          have h1 := congrArg List.length
            (List.takeWhile_append_dropWhile (p := notComb) (l := rev))
          rw [hd] at h1
          simp at h1
          omega
        exact ih rest (by omega) (reasonOf comb) y hy2

/-- Every group the iterator yields is combinator-free (this is what
licenses `selector_group_matches`' combinator branches being
unreachable). -/
theorem cssGroups_combFree (path : List CssPathSelector) :
    ∀ y ∈ cssGroups path, combFree y.1 := by
  rw [cssGroups_eq_groupsRevSpec]
  exact groupsRevSpec_combFree path.reverse.length path.reverse le_rfl .Children

/-- A nonempty path yields at least one group. -/
theorem cssGroups_ne_nil {path : List CssPathSelector} (h : path ≠ []) :
    cssGroups path ≠ [] := by
  rw [cssGroups_eq_groupsRevSpec]
  have hrev : path.reverse ≠ [] := by simpa using h
  rcases hd : path.reverse.dropWhile notComb with _ | ⟨comb, rest⟩
  · rw [groupsRevSpec_eq_nil hd]
    have htw : path.reverse.takeWhile notComb = path.reverse := by
      have := List.takeWhile_append_dropWhile (p := notComb) (l := path.reverse)
      rw [hd, List.append_nil] at this
      exact this
    rw [htw]
    simp [List.isEmpty_iff, hrev]
  · rw [groupsRevSpec_eq_cons hd]
    simp

/-! ## C8: the empty selector path matches nothing -/

/-- C8 (confirmed).  For every node in every tree, a selector path with
zero selectors matches no node: `matches_html_element` on the empty path
always returns `false`. -/
theorem matches_html_element_empty_path (node_id : Nat)
    (hier : Nat → Option Nat) (tree : Nat → HtmlCascadeInfo) :
    CssPath.matches_html_element ⟨[]⟩ node_id hier tree = some false := rfl

/-! ## The matching walk: supporting lemmas -/

theorem selector_group_matches_isSome :
    ∀ (g : List CssPathSelector), combFree g → ∀ (info : HtmlCascadeInfo),
    (selector_group_matches g info).isSome := by
  intro g
  induction g with
  | nil => intro _ info; simp [selector_group_matches]
  | cons s rest ih =>
    intro hcf info
    have hs : isCombinator s = false := hcf s (List.mem_cons_self _ _)
    have hrest : combFree rest := fun x hx => hcf x (List.mem_cons_of_mem _ hx)
    cases s with
    | Global => simpa [selector_group_matches] using ih hrest info
    | TypeName t =>
      simp only [selector_group_matches]
      split
      · simp
      · exact ih hrest info
    | Class c =>
      simp only [selector_group_matches]
      split
      · simp
      · exact ih hrest info
    | Id i =>
      simp only [selector_group_matches]
      split
      · simp
      · exact ih hrest info
    | PseudoSelector p =>
      cases p <;>
        (simp only [selector_group_matches]
         split
         · simp
         · exact ih hrest info)
    | DirectChildren => simp [isCombinator] at hs
    | Children => simp [isCombinator] at hs

theorem nthAncestor_succ_of_parent {hier : Nat → Option Nat} {m m2 : Nat}
    (hm : hier m = some m2) (k : Nat) :
    nthAncestor hier (k + 1) m = nthAncestor hier k m2 := by
  rw [nthAncestor, hm]

theorem matchLoop_eq_stepChain (hier : Nat → Option Nat)
    (tree : Nat → HtmlCascadeInfo) :
    ∀ (gs : List (CssContentGroup × CssGroupSplitReason)) (m : Nat) (d l : Bool),
    (∀ y ∈ gs, combFree y.1) →
    (∀ k, k < gs.length → (nthAncestor hier k m).isSome) →
    matchLoop hier tree gs (some m) d l =
      some (stepChain (pairsOf hier tree gs m) d l) := by
  intro gs
  induction gs with
  | nil => intro m d l _ _; rfl
  | cons y rest ih =>
    intro m d l hcf hanc
    obtain ⟨g, r⟩ := y
    obtain ⟨b, hb⟩ := Option.isSome_iff_exists.mp
      (selector_group_matches_isSome g (hcf (g, r) (List.mem_cons_self _ _)) (tree m))
    rw [show matchLoop hier tree ((g, r) :: rest) (some m) d l =
        (match selector_group_matches g (tree m) with
         | none => none
         | some mt =>
           if d && !mt then some false
           else matchLoop hier tree rest (hier m)
             (decide (r = CssGroupSplitReason.DirectChildren)) mt) from rfl]
    rw [show pairsOf hier tree ((g, r) :: rest) m =
        ((selector_group_matches g (tree m)).getD false, r) ::
          pairsOf hier tree rest ((hier m).getD 0) from rfl]
    rw [hb]
    simp only [Option.getD_some]
    rw [show stepChain ((b, r) :: pairsOf hier tree rest ((hier m).getD 0)) d l =
        if d && !b then false
        else stepChain (pairsOf hier tree rest ((hier m).getD 0))
          (decide (r = CssGroupSplitReason.DirectChildren)) b from rfl]
    cases hdb : (d && !b) with
    | true => simp [hdb]
    | false =>
      simp only [hdb, Bool.false_eq_true, if_false]
      cases hrest : rest with
      | nil => simp [matchLoop, pairsOf, stepChain]
      | cons y2 rest2 =>
        have h1 : (nthAncestor hier 1 m).isSome := by
          apply hanc
          rw [hrest]
          simp
        have hm2 : ∃ m2, hier m = some m2 := by
          rcases hp : hier m with _ | m2
          · rw [show nthAncestor hier 1 m = match hier m with
              | none => none
              | some p => nthAncestor hier 0 p from rfl, hp] at h1
            simp at h1
          · exact ⟨m2, rfl⟩
        obtain ⟨m2, hm2⟩ := hm2
        rw [hm2]
        rw [show (some m2).getD 0 = m2 from rfl]
        rw [← hrest]
        apply ih
        · intro z hz
          exact hcf z (List.mem_cons_of_mem _ hz)
        · intro k hk
          rw [← nthAncestor_succ_of_parent hm2 k]
          apply hanc
          simp
          omega

theorem pairsOf_length (hier : Nat → Option Nat) (tree : Nat → HtmlCascadeInfo) :
    ∀ (gs : List (CssContentGroup × CssGroupSplitReason)) (m : Nat),
    (pairsOf hier tree gs m).length = gs.length := by
  intro gs
  induction gs with
  | nil => intro m; rfl
  | cons y rest ih =>
    intro m
    obtain ⟨g, r⟩ := y
    simp [pairsOf, ih]

theorem pairsOf_getD (hier : Nat → Option Nat) (tree : Nat → HtmlCascadeInfo) :
    ∀ (gs : List (CssContentGroup × CssGroupSplitReason)) (m k : Nat),
    k < gs.length →
    (∀ j, j ≤ k → (nthAncestor hier j m).isSome) →
    (pairsOf hier tree gs m).getD k (false, .Children) =
      ((selector_group_matches (gs.getD k ([], .Children)).1
         (tree ((nthAncestor hier k m).getD 0))).getD false,
       (gs.getD k ([], .Children)).2) := by
  intro gs
  induction gs with
  | nil => intro m k hk _; simp at hk
  | cons y rest ih =>
    intro m k hk hanc
    obtain ⟨g, r⟩ := y
    cases k with
    | zero => rfl
    | succ k2 =>
      have h1 : (nthAncestor hier 1 m).isSome := hanc 1 (by omega)
      have hm2 : ∃ m2, hier m = some m2 := by
        rcases hp : hier m with _ | m2
        · rw [show nthAncestor hier 1 m = match hier m with
            | none => none
            | some p => nthAncestor hier 0 p from rfl, hp] at h1
          simp at h1
        · exact ⟨m2, rfl⟩
      obtain ⟨m2, hm2⟩ := hm2
      rw [show pairsOf hier tree ((g, r) :: rest) m =
          ((selector_group_matches g (tree m)).getD false, r) ::
            pairsOf hier tree rest ((hier m).getD 0) from rfl]
      rw [List.getD_cons_succ, List.getD_cons_succ, hm2]
      rw [show (some m2).getD 0 = m2 from rfl]
      rw [nthAncestor_succ_of_parent hm2 k2]
      apply ih
      · simpa using hk
      · intro j hj
        rw [← nthAncestor_succ_of_parent hm2 j]
        exact hanc (j + 1) (by omega)

theorem stepChain_eq_true_iff :
    ∀ (ps : List (Bool × CssGroupSplitReason)) (d l : Bool),
    (stepChain ps d l = true ↔
      ((ps = [] ∧ l = true) ∨
       (ps ≠ [] ∧
        (d = true → (ps.getD 0 (false, .Children)).1 = true) ∧
        (ps.getD (ps.length - 1) (false, .Children)).1 = true ∧
        ∀ k, k + 1 < ps.length →
          (ps.getD k (false, .Children)).2 = CssGroupSplitReason.DirectChildren →
          (ps.getD (k + 1) (false, .Children)).1 = true))) := by
  intro ps
  induction ps with
  | nil => intro d l; simp [stepChain]
  | cons p ps ih =>
    obtain ⟨b, r⟩ := p
    intro d l
    rw [show stepChain ((b, r) :: ps) d l =
        (if d && !b then false
         else stepChain ps (decide (r = CssGroupSplitReason.DirectChildren)) b)
      from rfl]
    cases hdb : (d && !b) with
    | true =>
      have hd : d = true := by
        rcases Bool.and_eq_true _ _ |>.mp hdb with ⟨h1, _⟩
        exact h1
      have hb : b = false := by
        rcases Bool.and_eq_true _ _ |>.mp hdb with ⟨_, h2⟩
        simpa using h2
      subst hd
      subst hb
      simp
    | false =>
      have hdb2 : d = true → b = true := by
        intro hd
        subst hd
        simpa using hdb
      simp only [hdb, Bool.false_eq_true, if_false]
      rw [ih (decide (r = CssGroupSplitReason.DirectChildren)) b]
      cases ps with
      | nil =>
        simp only [List.getD_cons_zero, List.length_cons, List.length_nil]
        constructor
        · intro h
          rcases h with ⟨_, hb⟩ | ⟨hne, _⟩
          · refine Or.inr ⟨by simp, fun _ => hb, hb, ?_⟩
            intro k hk
            omega
          · exact absurd rfl hne
        · intro h
          rcases h with ⟨hc, _⟩ | ⟨_, _, hb, _⟩
          · simp at hc
          · exact Or.inl ⟨trivial, hb⟩
      | cons p2 ps2 =>
        simp only [List.getD_cons_zero, List.getD_cons_succ, List.length_cons,
          Nat.add_sub_cancel]
        constructor
        · intro h
          rcases h with ⟨hc, _⟩ | ⟨_, hhead, hlast, hcons⟩
          · simp at hc
          · refine Or.inr ⟨by simp, hdb2, ?_, ?_⟩
            · simpa using hlast
            · intro k hk hr
              cases k with
              | zero =>
                exact hhead (by simpa using hr)
              | succ k2 =>
                simp only [List.getD_cons_succ]
                exact hcons k2 (by omega) (by simpa using hr)
        · intro h
          rcases h with ⟨hc, _⟩ | ⟨_, _, hlast, hcons⟩
          · simp at hc
          · refine Or.inr ⟨by simp, ?_, ?_, ?_⟩
            · intro hdec
              exact hcons 0 (by omega) (by simpa using hdec)
            · simpa using hlast
            · intro k hk hr
              have := hcons (k + 1) (by omega) (by simpa using hr)
              simpa using this

/-! ## C2: the walk's result is decided by the last group tested -/

/-- C2 (confirmed).  For a non-empty selector path, when every loop
iteration has an ancestor to consult (the hypothesis `hanc`; running out
of ancestors is C3's separate early return), `matches_html_element`
returns `true` exactly when the *last* group tested matched the node
reached at that point: the walk consults the `k`-th ancestor for group
`k` (one ancestor level per group regardless of combinator kind, encoded
in `groupMatchB`), the final group — the one closest to the root — must
match there, and the only earlier tests that can decide the outcome are
the direct-child ("must literally be the parent") checks; a group whose
transition is tagged "descendant" (`Children`) that fails at its
ancestor level never by itself makes the result false. -/
theorem matches_html_element_iff_last_group
    (hier : Nat → Option Nat) (tree : Nat → HtmlCascadeInfo)
    (sels : List CssPathSelector) (node : Nat)
    (hne : sels ≠ [])
    (hanc : ∀ k, k < (cssGroups sels).length → (nthAncestor hier k node).isSome) :
    (CssPath.matches_html_element ⟨sels⟩ node hier tree = some true ↔
      (groupMatchB hier tree sels node ((cssGroups sels).length - 1) = true ∧
       ∀ k, k + 1 < (cssGroups sels).length →
         groupReason sels k = CssGroupSplitReason.DirectChildren →
         groupMatchB hier tree sels node (k + 1) = true)) := by
  have hL : (pairsOf hier tree (cssGroups sels) node).length =
      (cssGroups sels).length := pairsOf_length hier tree (cssGroups sels) node
  have hLpos : 0 < (cssGroups sels).length :=
    List.length_pos.mpr (cssGroups_ne_nil hne)
  have hgetD : ∀ k, k < (cssGroups sels).length →
      (pairsOf hier tree (cssGroups sels) node).getD k (false, .Children) =
        (groupMatchB hier tree sels node k, groupReason sels k) := by
    intro k hk
    rw [pairsOf_getD hier tree (cssGroups sels) node k hk
      (fun j hj => hanc j (by omega))]
    rfl
  rw [show CssPath.matches_html_element ⟨sels⟩ node hier tree =
      matchLoop hier tree (cssGroups sels) (some node) false false from by
    rw [CssPath.matches_html_element, if_neg (by simpa using hne)]]
  rw [matchLoop_eq_stepChain hier tree (cssGroups sels) node false false
    (cssGroups_combFree sels) hanc]
  rw [Option.some_inj]
  rw [stepChain_eq_true_iff]
  have hpsne : pairsOf hier tree (cssGroups sels) node ≠ [] := by
    intro h0
    rw [h0] at hL
    simp at hL
    omega
  constructor
  · rintro (⟨_, hl⟩ | ⟨_, _, hlast, hcons⟩)
    · exact absurd hl (by simp)
    · constructor
      · have h2 := hlast
        rw [hL, hgetD ((cssGroups sels).length - 1) (by omega)] at h2
        exact h2
      · intro k hk hr
        have h2 := hcons k (by omega) (by rw [hgetD k (by omega)]; exact hr)
        rw [hgetD (k + 1) (by omega)] at h2
        exact h2
  · rintro ⟨hlast, hcons⟩
    refine Or.inr ⟨hpsne, by simp, ?_, ?_⟩
    · rw [hL, hgetD ((cssGroups sels).length - 1) (by omega)]
      exact hlast
    · intro k hk hr
      rw [hgetD (k + 1) (by omega)]
      refine hcons k (by omega) ?_
      rw [hgetD k (by omega)] at hr
      exact hr

/-- Witness for C2: a single-class path tested at node `2` (which
carries the class) with no parents; the iff holds with both sides
true. -/
theorem matches_html_element_iff_last_group_witness :
    (CssPath.matches_html_element ⟨[CssPathSelector.Class (("c").toList)]⟩ 2
        demoNoParent demoTree = some true ↔
      (groupMatchB demoNoParent demoTree [CssPathSelector.Class (("c").toList)] 2
          ((cssGroups [CssPathSelector.Class (("c").toList)]).length - 1) = true ∧
       ∀ k, k + 1 < (cssGroups [CssPathSelector.Class (("c").toList)]).length →
         groupReason [CssPathSelector.Class (("c").toList)] k =
           CssGroupSplitReason.DirectChildren →
         groupMatchB demoNoParent demoTree [CssPathSelector.Class (("c").toList)] 2
           (k + 1) = true)) :=
  matches_html_element_iff_last_group demoNoParent demoTree
    [CssPathSelector.Class (("c").toList)] 2 (by decide)
    (by
      intro k hk
      have hL : (cssGroups [CssPathSelector.Class (("c").toList)]).length = 1 := rfl
      rw [hL] at hk
      have hk0 : k = 0 := by omega
      subst hk0
      decide)

/-! ## C3: running out of ancestors -/

theorem matchLoop_none_char (hier : Nat → Option Nat)
    (tree : Nat → HtmlCascadeInfo) :
    ∀ (k : Nat) (gs : List (CssContentGroup × CssGroupSplitReason)) (m : Nat)
      (d l : Bool),
    (∀ y ∈ gs, combFree y.1) →
    k < gs.length →
    nthAncestor hier k m = none →
    (∀ j, j < k → (nthAncestor hier j m).isSome) →
    (d = true → (selector_group_matches (gs.getD 0 ([], .Children)).1
      (tree m)).getD false = true) →
    (∀ j, j + 1 < k →
      (gs.getD j ([], .Children)).2 = CssGroupSplitReason.DirectChildren →
      (selector_group_matches (gs.getD (j + 1) ([], .Children)).1
        (tree ((nthAncestor hier (j + 1) m).getD 0))).getD false = true) →
    matchLoop hier tree gs (some m) d l =
      some (decide ((gs.getD k ([], .Children)).1 = [CssPathSelector.Global])) := by
  intro k
  induction k with
  | zero =>
    intro gs m d l _ _ hnone _ _ _
    rw [show nthAncestor hier 0 m = some m from rfl] at hnone
    cases hnone
  | succ k2 ih =>
    intro gs m d l hcf hk hnone hprev hd0 hnoexit
    rcases gs with _ | ⟨⟨g, r⟩, rest⟩
    · simp at hk
    obtain ⟨b, hb⟩ := Option.isSome_iff_exists.mp
      (selector_group_matches_isSome g (hcf (g, r) (List.mem_cons_self _ _))
        (tree m))
    have hdb : (d && !b) = false := by
      cases d with
      | false => rfl
      | true =>
        have h2 := hd0 rfl
        rw [List.getD_cons_zero] at h2
        rw [hb] at h2
        simp at h2
        simp [h2]
    rw [show matchLoop hier tree ((g, r) :: rest) (some m) d l =
        (match selector_group_matches g (tree m) with
         | none => none
         | some mt =>
           if d && !mt then some false
           else matchLoop hier tree rest (hier m)
             (decide (r = CssGroupSplitReason.DirectChildren)) mt) from rfl]
    rw [hb]
    simp only [hdb, Bool.false_eq_true, if_false]
    rw [List.getD_cons_succ]
    cases k2 with
    | zero =>
      have hm : hier m = none := by
        rcases hp : hier m with _ | m2
        · rfl
        · rw [nthAncestor_succ_of_parent hp 0] at hnone
          cases hnone
      rw [hm]
      rcases rest with _ | ⟨y2, rest2⟩
      · simp at hk
      · rfl
    | succ k3 =>
      have h1 : (nthAncestor hier 1 m).isSome := hprev 1 (by omega)
      have hm2 : ∃ m2, hier m = some m2 := by
        rcases hp : hier m with _ | m2
        · rw [show nthAncestor hier 1 m = match hier m with
            | none => none
            | some p => nthAncestor hier 0 p from rfl, hp] at h1
          simp at h1
        · exact ⟨m2, rfl⟩
      obtain ⟨m2, hm2⟩ := hm2
      rw [hm2]
      apply ih rest m2
      · intro y hy
        exact hcf y (List.mem_cons_of_mem _ hy)
      · simpa using hk
      · rw [← nthAncestor_succ_of_parent hm2]
        exact hnone
      · intro j hj
        rw [← nthAncestor_succ_of_parent hm2]
        exact hprev (j + 1) (by omega)
      · intro hdec
        have h2 := hnoexit 0 (by omega) (by simpa using hdec)
        rw [List.getD_cons_succ] at h2
        rw [nthAncestor_succ_of_parent hm2 0] at h2
        rw [show nthAncestor hier 0 m2 = some m2 from rfl] at h2
        exact h2
      · intro j hj hr
        have h2 := hnoexit (j + 1) (by omega)
          (by rw [List.getD_cons_succ]; exact hr)
        rw [List.getD_cons_succ] at h2
        rw [nthAncestor_succ_of_parent hm2 (j + 1)] at h2
        exact h2

/-- C3 (confirmed).  If the ancestor walk runs out of ancestors while at
least one group remains to be tested (the walk reaches iteration `k`
with no node: all earlier levels existed, no earlier direct-child check
failed, and the `k`-th ancestor is missing), the overall result is
`true` exactly when that remaining group is the single universal (`*`)
selector, and `false` otherwise. -/
theorem matches_html_element_out_of_ancestors
    (hier : Nat → Option Nat) (tree : Nat → HtmlCascadeInfo)
    (sels : List CssPathSelector) (node k : Nat)
    (hk : k < (cssGroups sels).length)
    (hnone : nthAncestor hier k node = none)
    (hprev : ∀ j, j < k → (nthAncestor hier j node).isSome)
    (hnoexit : ∀ j, j + 1 < k →
      groupReason sels j = CssGroupSplitReason.DirectChildren →
      groupMatchB hier tree sels node (j + 1) = true) :
    CssPath.matches_html_element ⟨sels⟩ node hier tree =
      some (decide (((cssGroups sels).getD k ([], .Children)).1 =
        [CssPathSelector.Global])) := by
  have hne : sels ≠ [] := by
    intro h0
    subst h0
    rw [show cssGroups ([] : List CssPathSelector) = [] from rfl] at hk
    simp at hk
  rw [show CssPath.matches_html_element ⟨sels⟩ node hier tree =
      matchLoop hier tree (cssGroups sels) (some node) false false from by
    rw [CssPath.matches_html_element, if_neg (by simpa using hne)]]
  exact matchLoop_none_char hier tree k (cssGroups sels) node false false
    (cssGroups_combFree sels) hk hnone hprev (by simp)
    (fun j hj hr => hnoexit j hj hr)

/-- Witness for C3: the path `.a .c` tested at a parentless node
carrying class `c` — the walk runs out after the first group and the
remaining group `[.a]` is not `[*]`, so the result is `false`. -/
theorem matches_html_element_out_of_ancestors_witness :
    CssPath.matches_html_element
        ⟨[CssPathSelector.Class (("a").toList), .Children,
          .Class (("c").toList)]⟩ 2 demoNoParent demoTree =
      some (decide (((cssGroups [CssPathSelector.Class (("a").toList),
          .Children, .Class (("c").toList)]).getD 1 ([], .Children)).1 =
        [CssPathSelector.Global])) :=
  matches_html_element_out_of_ancestors demoNoParent demoTree
    [CssPathSelector.Class (("a").toList), .Children,
      .Class (("c").toList)] 2 1 (by decide) (by decide)
    (by
      intro j hj
      have hj0 : j = 0 := by omega
      subst hj0
      decide)
    (by
      intro j hj
      exact absurd hj (by omega))

/-! ## C6: the specificity sort is a stable ascending lexicographic sort -/

theorem specCmp_not_gt_iff (a b : Nat × Nat × Nat) :
    (specCmp a b ≠ .gt) ↔ lexLeSpec a b := by
  unfold specCmp lexLeSpec
  rcases hc1 : compare a.1 b.1 with _ | _ | _ <;>
    rcases hc2 : compare a.2.1 b.2.1 with _ | _ | _ <;>
      rcases hc3 : compare a.2.2 b.2.2 with _ | _ | _ <;>
        (simp only [Nat.compare_eq_lt, Nat.compare_eq_eq, Nat.compare_eq_gt]
           at hc1 hc2 hc3
         simp [Ordering.then]
         omega)

theorem specLeB_iff {P : Type} (a b : CssRuleBlock P) :
    (specLeB a b = true ↔
      lexLeSpec (get_specificity a.path) (get_specificity b.path)) := by
  unfold specLeB
  rcases hcmp : specCmp (get_specificity a.path) (get_specificity b.path) with
    _ | _ | _
  · simpa using (specCmp_not_gt_iff _ _).mp (by rw [hcmp]; simp)
  · simpa using (specCmp_not_gt_iff _ _).mp (by rw [hcmp]; simp)
  · simp only [iff_false, Bool.false_eq_true, false_iff]
    intro hlex
    exact absurd hcmp (by
      have := (specCmp_not_gt_iff (get_specificity a.path)
        (get_specificity b.path)).mpr hlex
      intro h2
      exact this h2)

theorem specLeB_trans {P : Type} (a b c : CssRuleBlock P)
    (h1 : specLeB a b) (h2 : specLeB b c) : specLeB a c = true := by
  rw [specLeB_iff] at h1 h2 ⊢
  unfold lexLeSpec at h1 h2 ⊢
  omega

theorem specLeB_total {P : Type} (a b : CssRuleBlock P) :
    specLeB a b || specLeB b a := by
  rcases h : specLeB a b with _ | _
  · simp only [Bool.false_or]
    rw [specLeB_iff]
    have hn : ¬ lexLeSpec (get_specificity a.path) (get_specificity b.path) := by
      intro hx
      have h2 := (specLeB_iff a b).mpr hx
      rw [h] at h2
      cases h2
    unfold lexLeSpec at hn ⊢
    omega
  · simp

/-- C6 (confirmed).  `sort_by_specificity` is a stable ascending sort
keyed on the `(id count, class count, type count)` triple of each rule's
path, compared lexicographically with the id count most significant:
the output is pairwise non-decreasing in that order, is a permutation of
the input, and rules with equal triples keep their original relative
order (the output's subsequence at any fixed triple equals the input's). -/
theorem sort_by_specificity_sorted_stable {P : Type}
    (rules : List (CssRuleBlock P)) :
    (List.Pairwise (fun r1 r2 =>
        lexLeSpec (get_specificity r1.path) (get_specificity r2.path))
      (sort_by_specificity rules))
    ∧ List.Perm (sort_by_specificity rules) rules
    ∧ ∀ s : Nat × Nat × Nat,
        (sort_by_specificity rules).filter
          (fun r => decide (get_specificity r.path = s)) =
        rules.filter (fun r => decide (get_specificity r.path = s)) := by
  have htrans : ∀ (a b c : CssRuleBlock P),
      specLeB a b → specLeB b c → specLeB a c := specLeB_trans
  have htotal : ∀ (a b : CssRuleBlock P), specLeB a b || specLeB b a :=
    specLeB_total
  refine ⟨?_, ?_, ?_⟩
  · have hs := List.sorted_mergeSort htrans htotal rules
    exact hs.imp (fun h => (specLeB_iff _ _).mp h)
  · exact List.mergeSort_perm rules specLeB
  · intro s
    have hpw : (rules.filter
        (fun r => decide (get_specificity r.path = s))).Pairwise
        (fun a b => specLeB a b) := by
      apply List.pairwise_of_forall_mem_list
      intro a ha b hb
      have ha2 : get_specificity a.path = s := by
        have := (List.mem_filter.mp ha).2
        simpa using this
      have hb2 : get_specificity b.path = s := by
        have := (List.mem_filter.mp hb).2
        simpa using this
      rw [specLeB_iff, ha2, hb2]
      unfold lexLeSpec
      omega
    have hsub : List.Sublist
        (rules.filter (fun r => decide (get_specificity r.path = s)))
        (sort_by_specificity rules) :=
      List.sublist_mergeSort htrans htotal hpw (List.filter_sublist rules)
    have hsub2 : List.Sublist
        ((rules.filter (fun r => decide (get_specificity r.path = s))).filter
          (fun r => decide (get_specificity r.path = s)))
        ((sort_by_specificity rules).filter
          (fun r => decide (get_specificity r.path = s))) :=
      hsub.filter _
    have hff : (rules.filter
        (fun r => decide (get_specificity r.path = s))).filter
        (fun r => decide (get_specificity r.path = s)) =
        rules.filter (fun r => decide (get_specificity r.path = s)) := by
      rw [List.filter_filter]
      congr 1
      funext r
      simp
    rw [hff] at hsub2
    have hperm : List.Perm
        ((sort_by_specificity rules).filter
          (fun r => decide (get_specificity r.path = s)))
        (rules.filter (fun r => decide (get_specificity r.path = s))) :=
      (List.mergeSort_perm rules specLeB).filter _
    exact (hsub2.eq_of_length (hperm.length_eq).symm).symm

/-! ## C7: what the cascade driver gives each direct child -/

theorem foldl_updateFn_not_mem {A : Type} (v : Nat → A) :
    ∀ (cs : List Nat) (st : Nat → Option A) (c : Nat), c ∉ cs →
    (cs.foldl (fun st2 k => updateFn st2 k (v k)) st) c = st c := by
  intro cs
  induction cs with
  | nil => intro st c _; rfl
  | cons k cs ih =>
    intro st c hc
    have hck : c ≠ k := fun h => hc (by rw [h]; exact List.mem_cons_self _ _)
    have hcs : c ∉ cs := fun h => hc (List.mem_cons_of_mem _ h)
    rw [List.foldl_cons, ih _ c hcs, updateFn, if_neg hck]

theorem foldl_updateFn_mem {A : Type} (v : Nat → A) :
    ∀ (cs : List Nat) (st : Nat → Option A) (c : Nat), c ∈ cs →
    (cs.foldl (fun st2 k => updateFn st2 k (v k)) st) c = some (v c) := by
  intro cs
  induction cs with
  | nil => intro st c hc; cases hc
  | cons k cs ih =>
    intro st c hc
    by_cases hcs : c ∈ cs
    · rw [List.foldl_cons, ih _ c hcs]
    · have hck : c = k := by
        rcases List.mem_cons.mp hc with h | h
        · exact h
        · exact absurd h hcs
      subst hck
      rw [List.foldl_cons, foldl_updateFn_not_mem v cs _ c hcs, updateFn,
        if_pos rfl]

theorem childUpdate_eq {P : Type} (inh : P → Bool)
    (css : List (CssRuleBlock P)) (hier : Nat → Option Nat)
    (children : Nat → List Nat) (tree : Nat → HtmlCascadeInfo)
    (inheritable : List (CssDeclaration P)) :
    (fun (st2 : Nat → Option (List (CssDeclaration P))) child_id =>
      match (children child_id).head? with
      | none =>
        updateFn st2 child_id (inheritable ++ matchingDecls css hier tree child_id)
      | some _ => updateFn st2 child_id inheritable) =
    (fun st2 k => updateFn st2 k
      (if children k = []
       then inheritable ++ matchingDecls css hier tree k
       else inheritable)) := by
  funext st2 k
  rcases hk : (children k).head? with _ | y
  · rw [if_pos (List.head?_eq_none_iff.mp hk)]
  · have hne : ¬ children k = [] := by
      intro h0
      rw [h0] at hk
      cases hk
    rw [if_neg hne]

theorem cascadeStep_child {P : Type} (inh : P → Bool)
    (css : List (CssRuleBlock P)) (hier : Nat → Option Nat)
    (children : Nat → List Nat) (tree : Nat → HtmlCascadeInfo)
    (st : Nat → Option (List (CssDeclaration P))) (p c : Nat)
    (hc : c ∈ children p) (hcp : c ≠ p) :
    cascadeStep inh css hier children tree st p c =
      some (if children c = []
        then (((st p).getD [] ++ matchingDecls css hier tree p).filter
                (CssDeclaration.is_inheritable inh))
             ++ matchingDecls css hier tree c
        else ((st p).getD [] ++ matchingDecls css hier tree p).filter
               (CssDeclaration.is_inheritable inh)) := by
  unfold cascadeStep
  rw [updateFn, if_neg hcp, childUpdate_eq inh]
  exact foldl_updateFn_mem _ (children p) st c hc

theorem cascadeStep_untouched {P : Type} (inh : P → Bool)
    (css : List (CssRuleBlock P)) (hier : Nat → Option Nat)
    (children : Nat → List Nat) (tree : Nat → HtmlCascadeInfo)
    (st : Nat → Option (List (CssDeclaration P))) (q c : Nat)
    (hcq : c ≠ q) (hcc : c ∉ children q) :
    cascadeStep inh css hier children tree st q c = st c := by
  unfold cascadeStep
  rw [updateFn, if_neg hcq, childUpdate_eq inh]
  exact foldl_updateFn_not_mem _ (children q) st c hcc

theorem match_dom_untouched_suffix {P : Type} (inh : P → Bool)
    (css : List (CssRuleBlock P)) (hier : Nat → Option Nat)
    (children : Nat → List Nat) (tree : Nat → HtmlCascadeInfo) (c : Nat) :
    ∀ (l2 : List Nat) (st : Nat → Option (List (CssDeclaration P))),
    (∀ q ∈ l2, c ≠ q ∧ c ∉ children q) →
    (l2.foldl (cascadeStep inh css hier children tree) st) c = st c := by
  intro l2
  induction l2 with
  | nil => intro st _; rfl
  | cons q l2 ih =>
    intro st hq
    rw [List.foldl_cons, ih _ (fun x hx => hq x (List.mem_cons_of_mem _ hx)),
      cascadeStep_untouched inh css hier children tree st q c
        (hq q (List.mem_cons_self _ _)).1 (hq q (List.mem_cons_self _ _)).2]

/-- C7 (confirmed).  When the cascade driver visits an internal node `p`
(after having processed some prefix `l1` of the visit order), each direct
child `c` of `p` is styled as follows: a child that itself has children
is initialized to exactly the inheritable subset of the parent's
accumulated declarations, while a leaf child receives that inheritable
subset followed by the declarations of every rule matching the leaf
directly; and a leaf child is never revisited — if no later visited node
has `c` as itself or as a child, the leaf's styled result at the end of
the whole traversal is still the value computed at `p`'s visit. -/
theorem match_dom_css_selectors_children {P : Type} (inh : P → Bool)
    (css : List (CssRuleBlock P)) (hier : Nat → Option Nat)
    (children : Nat → List Nat) (tree : Nat → HtmlCascadeInfo)
    (l1 l2 : List Nat) (p c : Nat)
    (hc : c ∈ children p) (hcp : c ≠ p) :
    (match_dom_css_selectors inh css hier children tree (l1 ++ [p]) c =
      some (if children c = []
        then (((match_dom_css_selectors inh css hier children tree l1 p).getD []
                ++ matchingDecls css hier tree p).filter
                (CssDeclaration.is_inheritable inh))
             ++ matchingDecls css hier tree c
        else ((match_dom_css_selectors inh css hier children tree l1 p).getD []
                ++ matchingDecls css hier tree p).filter
               (CssDeclaration.is_inheritable inh)))
    ∧ (children c = [] →
       (∀ q ∈ l2, c ≠ q ∧ c ∉ children q) →
       match_dom_css_selectors inh css hier children tree (l1 ++ p :: l2) c =
         some ((((match_dom_css_selectors inh css hier children tree l1 p).getD []
                  ++ matchingDecls css hier tree p).filter
                  (CssDeclaration.is_inheritable inh))
               ++ matchingDecls css hier tree c)) := by
  have hstep : match_dom_css_selectors inh css hier children tree (l1 ++ [p]) c =
      cascadeStep inh css hier children tree
        (match_dom_css_selectors inh css hier children tree l1) p c := by
    unfold match_dom_css_selectors
    rw [List.foldl_append]
    rfl
  constructor
  · rw [hstep]
    exact cascadeStep_child inh css hier children tree _ p c hc hcp
  · intro hleaf hq
    have h1 : match_dom_css_selectors inh css hier children tree (l1 ++ p :: l2) c =
        (l2.foldl (cascadeStep inh css hier children tree)
          (cascadeStep inh css hier children tree
            (match_dom_css_selectors inh css hier children tree l1) p)) c := by
      unfold match_dom_css_selectors
      rw [show l1 ++ p :: l2 = (l1 ++ [p]) ++ l2 by simp]
      rw [List.foldl_append, List.foldl_append]
      rfl
    rw [h1, match_dom_untouched_suffix inh css hier children tree c l2 _ hq]
    rw [cascadeStep_child inh css hier children tree _ p c hc hcp, if_pos hleaf]

/-- Witness for C7: in the demo tree (root `0` with children `1` and
`2`, only node `2` carrying class `c`), visiting `[0]` styles the leaf
child `2` with the `.c` rule's declaration (nothing inherited, since no
rule matches the root). -/
theorem match_dom_css_selectors_children_witness :
    match_dom_css_selectors (fun _ => true) demoCss demoParent demoChildren
      demoTree ([] ++ [(0 : Nat)]) 2 = some [CssDeclaration.Static ()] := by
  have h := (match_dom_css_selectors_children (fun _ => true) demoCss demoParent
    demoChildren demoTree [] [] 0 2 (by decide) (by decide)).1
  rw [h]
  rfl

/-! ## Totality of the matcher (the panic branch is unreachable) -/

theorem matchLoop_isSome (hier : Nat → Option Nat)
    (tree : Nat → HtmlCascadeInfo) :
    ∀ (gs : List (CssContentGroup × CssGroupSplitReason)),
    (∀ y ∈ gs, combFree y.1) →
    ∀ (cur : Option Nat) (d l : Bool),
    (matchLoop hier tree gs cur d l).isSome := by
  intro gs
  induction gs with
  | nil => intro _ cur d l; simp [matchLoop]
  | cons y rest ih =>
    intro hcf cur d l
    obtain ⟨g, r⟩ := y
    rcases cur with _ | m
    · simp [matchLoop]
    · obtain ⟨b, hb⟩ := Option.isSome_iff_exists.mp
        (selector_group_matches_isSome g (hcf (g, r) (List.mem_cons_self _ _))
          (tree m))
      rw [show matchLoop hier tree ((g, r) :: rest) (some m) d l =
          (match selector_group_matches g (tree m) with
           | none => none
           | some mt =>
             if d && !mt then some false
             else matchLoop hier tree rest (hier m)
               (decide (r = CssGroupSplitReason.DirectChildren)) mt) from rfl]
      rw [hb]
      show (if d && !b then some false
        else matchLoop hier tree rest (hier m)
          (decide (r = CssGroupSplitReason.DirectChildren)) b).isSome = true
      split
      · simp
      · exact ih (fun z hz => hcf z (List.mem_cons_of_mem _ hz)) (hier m) _ b

/-- `matches_html_element` never actually panics: the `Option` result is
always `some`, because iterator-produced groups are combinator-free.
This licenses the cascade driver's boolean view `matchesB`. -/
theorem matches_html_element_isSome (path : CssPath) (node_id : Nat)
    (hier : Nat → Option Nat) (tree : Nat → HtmlCascadeInfo) :
    (path.matches_html_element node_id hier tree).isSome := by
  unfold CssPath.matches_html_element
  split
  · simp
  · exact matchLoop_isSome hier tree (cssGroups path.selectors)
      (cssGroups_combFree path.selectors) (some node_id) false false
